import Mathlib

/-!
Verification of the Modbus-to-MQTT gateway core (`app/services/modbus_line.py`,
`app/services/mqtt_bridge.py`, `app/services/current_store.py`,
`app/services/hot_reload.py`) against its natural-language specification.

Modelling conventions:
* Python floats are modelled as exact rationals (`ℚ`).  All concrete inputs used
  in witnesses and counterexamples are exactly representable in binary64 and the
  operations on them are exact, so the model agrees with the running code there.
* Python dicts serialised to JSON are modelled by the inductive `J`; the exact
  decimal string Python produces for a float is not modelled (constructor `jval`
  stands for the serialised numeric value).
* Machine registers are natural numbers masked with `% 65536` exactly where the
  source masks with `& 0xFFFF`.
-/

namespace Gateway

/-- Python `str.lower()` (ASCII inputs only in this system). -/
def pyToLower (s : String) : String := String.mk (s.toList.map Char.toLower)

/-- Python `str.upper()` (ASCII inputs only in this system). -/
def pyToUpper (s : String) : String := String.mk (s.toList.map Char.toUpper)

/-- A decoded engineering value.  The source distinguishes Python `int` from
Python `float` (the distinction is observable: `str(42)` vs `str(42.0)`), so the
model keeps the tag. -/
inductive Val where
  | i (n : ℤ)
  | q (x : ℚ)
deriving DecidableEq, Repr

/-- The numeric content of a value, forgetting the int/float tag. -/
def valQ : Val → ℚ
  | .i n => (n : ℚ)
  | .q x => x

/-- JSON-like values as built by the Python side (dicts / strings / ints / None).
`jval` stands for a serialised numeric value whose exact Python string form is
not modelled.  `jobj` keeps fields in dict insertion order. -/
inductive J where
  | null
  | jint (n : ℤ)
  | jstr (s : String)
  | jval (v : Val)
  | jobj (fields : List (String × J))

/-- Keys of a JSON object (insertion order), empty for non-objects. -/
def jkeys : J → List String
  | .jobj fs => fs.map Prod.fst
  | _ => []

/-- Dict lookup, `d.get(k)`. -/
def jGet (j : J) (k : String) : Option J :=
  match j with
  | .jobj fs => (fs.find? (fun f => f.1 = k)).map (fun f => f.2)
  | _ => none

/-- The `context` dict built by `ModbusLine._ctx`. -/
structure Ctx where
  object : String
  line : String
  unit_id : ℤ
  register_type : String
  address : ℤ
  param : String
deriving DecidableEq, Repr

/-- Model of `ModbusLine._ctx` as a JSON object (`dict(ctx)`). -/
def ctxJ (c : Ctx) : J :=
  J.jobj [("object", J.jstr c.object), ("line", J.jstr c.line),
          ("unit_id", J.jint c.unit_id), ("register_type", J.jstr c.register_type),
          ("address", J.jint c.address), ("param", J.jstr c.param)]

/-- The `status_details` dict that `ModbusLine._mqtt_publish` passes to
`MqttBridge.publish`: keys `message`, `silent_for_s`, `trigger`, `no_reply`. -/
structure SD where
  message : String
  silent_for_s : ℤ
  trigger : Option String
  no_reply : ℤ
deriving DecidableEq, Repr

/-- The bool-like register types of `MqttBridge._format_value_for_mqtt`. -/
def BOOL_TYPES : List String :=
  ["bool", "boolean", "bit", "coil", "di", "do", "discrete", "binary"]

/-- Model of `MqttBridge._maybe_bool_like` restricted to numeric values (the only values
the workers produce); the string branch of the source only ever sees numbers
re-serialised, with the same outcome. -/
def maybe_bool_like (v : Val) : Bool :=
  match v with
  | .i n => n = 0 ∨ n = 1
  | .q x => x = 0 ∨ x = 1

/-- Model of `MqttBridge._format_value_for_mqtt`.  `rt` is `context["register_type"]`
already stripped/lowercased by the source.  For non-discrete values the exact
Python decimal string is not modelled: the result is `jval v`. -/
def format_value_for_mqtt (value : Option Val) (rt : String) : J :=
  match value with
  | none => J.null
  | some v =>
    if rt ∈ BOOL_TYPES ∨ (rt = "" ∧ maybe_bool_like v) then
      J.jstr (if (1 : ℚ)/2 ≤ valQ v then "1" else "0")
    else
      J.jval v

/-- The outbound envelope built by `MqttBridge.publish` when called from
`ModbusLine._mqtt_publish` (the only caller on the polling path).  The source
builds `meta = {timestamp, status_code: {source, code}}`, pops `no_reply` from
`status_details`, coerces `silent_for_s` to `int` and merges the remaining
`status_details` keys (`message`, `silent_for_s`, `trigger`, in that order) into
`meta["status_code"]`; `context` is queued beside the payload but never
serialised into it. -/
def bridge_publish_payload (value : Option Val) (code : ℤ) (sd : SD)
    (rt : String) (tsStr : String) : J :=
  J.jobj [
    ("value", format_value_for_mqtt value rt),
    ("metadata", J.jobj [
      ("timestamp", J.jstr tsStr),
      ("status_code", J.jobj [
        ("source", J.jstr "persay"),
        ("code", J.jint code),
        ("message", J.jstr sd.message),
        ("silent_for_s", J.jint sd.silent_for_s),
        ("trigger", match sd.trigger with | none => J.null | some t => J.jstr t)])])]

/-- Whether two key lists name the same key set. -/
def sameKeySet (l m : List String) : Bool :=
  l.all (fun k => k ∈ m) && m.all (fun k => k ∈ l)

/-- The exact key shape demanded by the spec for the outbound envelope:
`value`, `metadata.timestamp`, `metadata.status_code.{source,code,message?}`,
`metadata.silent_for_s`, `metadata.trigger`, `metadata.no_reply`,
`metadata.context`, and nothing else. -/
def specEnvelopeShape (payload : J) : Bool :=
  sameKeySet (jkeys payload) ["value", "metadata"] &&
  (match jGet payload "metadata" with
   | none => false
   | some md =>
     sameKeySet (jkeys md)
       ["timestamp", "status_code", "silent_for_s", "trigger", "no_reply", "context"] &&
     (match jGet md "status_code" with
      | none => false
      | some sc =>
        ("source" ∈ jkeys sc : Bool) && ("code" ∈ jkeys sc : Bool) &&
        (jkeys sc).all (fun k => k ∈ ["source", "code", "message"])))

/-! ## Codec (`ModbusLine._decode_words`) -/

/-- The `reorder` closure inside `ModbusLine._decode_words`: permutes the 16-bit
words according to the order string (`"AB"`, `"BA"`, `"ABCD"`, ...), with the
source's fallbacks for a length mismatch and for unknown letters. -/
def reorder (words : List ℕ) (orderStr : String) : List ℕ :=
  let letters := orderStr.toList
  let n := words.length
  let letters :=
    if letters.length ≠ n then
      if n = 4 ∧ (orderStr = "AB" ∨ orderStr = "BA") then
        (if orderStr = "AB" then "ABCD" else "DCBA").toList
      else
        ("ABCD".toList).take n
    else letters
  let abcd := ("ABCD".toList).take n
  match letters.mapM (fun ch => ((abcd.findIdx? (fun c => c = ch)).bind
      (fun i => words.get? i))) with
  | some ws => ws
  | none => words

/-- Model of `ModbusLine._decode_words` on the integer data types.  Registers are masked
to 16 bits first; signed types use two's complement.  The `f32`/`f64` branches
unpack IEEE-754 bit patterns and are not modelled (no claim touches them): the
model returns `none` there, as it does where the source raises. -/
def decode_words (regs : List ℕ) (data_type : String) (word_order : String) :
    Option ℤ :=
  let regs : List ℕ := regs.map (fun x => x % 65536)
  let dt := pyToLower (if data_type = "" then "u16" else data_type)
  let order := pyToUpper (if word_order = "" then
      (if dt = "u64" ∨ dt = "s64" ∨ dt = "f64" then "ABCD" else "AB")
    else word_order)
  if dt = "u16" ∨ dt = "s16" then
    (regs.get? 0).map (fun v =>
      if dt = "s16" ∧ 32768 ≤ v then (v : ℤ) - 65536 else (v : ℤ))
  else if dt = "u32" ∨ dt = "s32" ∨ dt = "f32" then
    if regs.length < 2 then none
    else
      match reorder (regs.take 2) (if order.length = 2 then order else "AB") with
      | w0 :: w1 :: _ =>
        if dt = "f32" then none
        else
          let u32 : ℤ := (w0 : ℤ) * 65536 + (w1 : ℤ)
          some (if dt = "s32" ∧ 2 ^ 31 ≤ u32 then u32 - 2 ^ 32 else u32)
      | _ => none
  else if dt = "u64" ∨ dt = "s64" ∨ dt = "f64" then
    if regs.length < 4 then none
    else
      match reorder (regs.take 4) (if order.length = 4 then order else "ABCD") with
      | w0 :: w1 :: w2 :: w3 :: _ =>
        if dt = "f64" then none
        else
          let u64 : ℤ := (w0 : ℤ) * 2 ^ 48 + (w1 : ℤ) * 2 ^ 32 + (w2 : ℤ) * 65536 + (w3 : ℤ)
          some (if dt = "s64" ∧ 2 ^ 63 ≤ u64 then u64 - 2 ^ 64 else u64)
      | _ => none
  else
    (regs.get? 0).map (fun v => (v : ℤ))

/-! ## Address normalisation (`ModbusLine._normalize_addr`) -/

/-- Model of `ModbusLine._normalize_addr`, parametrised by the `addressing.normalize`
flag. -/
def normalize_addr (addr_normalize : Bool) (register_type : String) (a : ℤ) : ℤ :=
  if ¬addr_normalize then a
  else if register_type = "holding" ∧ 40001 ≤ a then a - 40001
  else if register_type = "input" ∧ 30001 ≤ a then a - 30001
  else if (register_type = "coil" ∨ register_type = "discrete") ∧
      1 ≤ a ∧ a < 100000 then a - 1
  else a

/-! ## Numeric helpers (`_safe_scale`, `_round_ndp`, Python `int()`/`round()`) -/

/-- Model of `_safe_scale`: `scale or 1.0` maps `0.0` (falsy) to `1.0`; the subsequent
`s if s != 0.0 else 1.0` is then a no-op. -/
def safe_scale (scale : ℚ) : ℚ := if scale = 0 then 1 else scale

/-- Round-half-even to an integer, the rounding Python applies both in
`round()` and when formatting with `f"{v:.{ndp}f}"` (for values whose decimal
expansion is exact, which holds at every concrete input used below). -/
def rhe (q : ℚ) : ℤ :=
  let f := ⌊q⌋
  let r := q - (f : ℚ)
  if r < 1/2 then f
  else if 1/2 < r then f + 1
  else if f % 2 = 0 then f else f + 1

/-- Model of `_round_ndp`: `float(f"{float(v):.{ndp}f}")`, i.e. rounding to `ndp`
decimal places. -/
def round_ndp (q : ℚ) (ndp : ℕ) : ℚ := ((rhe (q * 10 ^ ndp) : ℚ)) / 10 ^ ndp

/-- Python `int()` on a float: truncation toward zero. -/
def pyInt (q : ℚ) : ℤ := if 0 ≤ q then ⌊q⌋ else ⌈q⌉

/-! ## Parameter configuration (`ParamCfg`) -/

/-- The fields of `ParamCfg` that the polling/publishing logic reads. -/
structure ParamCfg where
  name : String
  register_type : String
  address : ℤ
  scale : ℚ := 1
  mode : String := "r"
  publish_mode : String := "on_change"
  publish_interval_s : ℚ := 0
  step : Option ℚ := none
  hysteresis : Option ℚ := none
  words : ℕ := 1
  data_type : String := "u16"
  word_order : String := "AB"
deriving DecidableEq, Repr

/-- Normalised wire address of a parameter (`self._normalize_addr(p)` with the
default `addressing.normalize = true`). -/
def paddr (p : ParamCfg) : ℤ := normalize_addr true p.register_type p.address

/-! ## Engineering value (`_read_single` scaling, and the block path in `run`) -/

/-- The integer data types listed in `_read_single`. -/
def is_int_type (dt : String) : Bool :=
  pyToLower dt ∈ ["u16", "s16", "u32", "s32", "u64", "s64"]

/-- The scaling step of `ModbusLine._read_single` (identical in the TCP and RTU
branches): an integer-typed raw with `scale == 1.0` is kept as a Python `int`;
everything else becomes `float(raw) * scale` rounded to `precision_decimals`. -/
def single_eng_val (dt : String) (raw : ℤ) (scale : ℚ) (ndp : ℕ) : Val :=
  let s := safe_scale scale
  if is_int_type dt ∧ s = 1 then Val.i raw
  else Val.q (round_ndp ((raw : ℚ) * s) ndp)

/-- The per-member raw-value coercion of the block-read loop in
`ModbusLine.run`: bits to `0/1`, `s16` sign-extended from the low 16 bits,
anything else masked as `u16`. -/
def block_raw (rt : String) (dt : String) (raw : ℤ) : ℤ :=
  if rt = "coil" ∨ rt = "discrete" then (if raw ≠ 0 then 1 else 0)
  else if pyToLower dt = "s16" then
    (let m := raw % 65536; if 32768 ≤ m then m - 65536 else m)
  else raw % 65536

/-- The engineering value computed on the block-read path of `ModbusLine.run`:
always `float(raw_v) * scale` rounded to `precision_decimals` — there is no
integer fast path here. -/
def block_eng_val (rt : String) (dt : String) (raw : ℤ) (scale : ℚ) (ndp : ℕ) :
    Val :=
  Val.q (round_ndp ((block_raw rt dt raw : ℚ) * safe_scale scale) ndp)

/-! ## Hysteresis bands (`_band_make`, `_analog_changed`) -/

/-- Model of `ModbusLine._band_make` for `step > 0` (its `step ≤ 0` branch returns the
unbounded band `(-inf, inf)`, which is unreachable from the guard in `_analog_changed` and not representable in `ℚ`): the base band `[k*step, (k+1)*step)` with
`k = ⌊v/step⌋`, widened by the hysteresis on both sides. -/
def band_make (v step hyst : ℚ) : ℚ × ℚ :=
  (⌊v / step⌋ * step - hyst, ⌊v / step⌋ * step + step + hyst)

/-- The per-parameter analog state: the stored effective band (`self._bands`)
and the last value (`self._last_values`). -/
structure AState where
  band : Option (ℚ × ℚ)
  last : Option ℚ
deriving DecidableEq, Repr

/-- Model of `ModbusLine._analog_changed`: for `step ≤ 0` plain inequality against the
last value; otherwise the first sample registers as changed and installs a
band, and later samples register as changed exactly when they leave the stored
band, re-installing a band around the new value. -/
def analog_changed (st : AState) (v step hyst : ℚ) : Bool × AState :=
  if step ≤ 0 then
    match st.last with
    | none => (true, st)
    | some lv => (decide (v ≠ lv), st)
  else
    let h := |hyst|
    match st.band with
    | none => (true, { st with band := some (band_make v step h) })
    | some (lo, hi) =>
      if v < lo ∨ hi < v then (true, { st with band := some (band_make v step h) })
      else (false, st)

/-- Repeated successful reads of an analog parameter as `_maybe_publish`
processes them: each sample is classified by `_analog_changed` and then stored
as the last value. -/
def analog_run (step hyst : ℚ) : AState → List ℚ → List Bool
  | _, [] => []
  | st, v :: vs =>
    let r := analog_changed st v step hyst
    r.1 :: analog_run step hyst { r.2 with last := some v } vs

/-! ## Request planner (`ModbusLine._group_sequential` and the multi-word
singles of `ModbusLine.run`) -/

/-- Model of `int(getattr(pp, "words", 1) or 1)`: a `words` of `0` (falsy) counts
as `1`. -/
def wordsEff (p : ParamCfg) : ℕ := if p.words = 0 then 1 else p.words

/-- The Python sort key `(x.register_type, self._normalize_addr(x))`. -/
def planKey (p : ParamCfg) : String × ℤ := (p.register_type, paddr p)

/-- Lexicographic comparison of Python sort keys. -/
def keyLe (a b : String × ℤ) : Prop := a.1 < b.1 ∨ (a.1 = b.1 ∧ a.2 ≤ b.2)

instance (a b : String × ℤ) : Decidable (keyLe a b) := by unfold keyLe; infer_instance

/-- Stable insertion into a key-sorted list (an element goes before the first
strictly larger key, after equal keys), matching Python's stable `sorted`. -/
def insertByKey (x : ParamCfg) : List ParamCfg → List ParamCfg
  | [] => [x]
  | y :: ys => if keyLe (planKey x) (planKey y) then x :: y :: ys
    else y :: insertByKey x ys

/-- Stable sort by `planKey`, matching Python's `sorted(items, key=...)`. -/
def sortByKey : List ParamCfg → List ParamCfg
  | [] => []
  | x :: xs => insertByKey x (sortByKey xs)

/-- One planned block read: `(register_type, start, count, params)` as appended
by the `flush()` closure of `_group_sequential`. -/
structure Block where
  rtype : String
  start : ℤ
  count : ℕ
  params : List ParamCfg
deriving Repr

/-- The block-size cap test of `_group_sequential` for a candidate member
count. -/
def overCap (maxBits maxRegs : ℕ) (rtype : String) (nextCount : ℕ) : Prop :=
  ((rtype = "coil" ∨ rtype = "discrete") ∧ maxBits < nextCount) ∨
  ((rtype = "holding" ∨ rtype = "input") ∧ maxRegs < nextCount)

instance (mb mr : ℕ) (rt : String) (n : ℕ) : Decidable (overCap mb mr rt n) := by
  unfold overCap; infer_instance

/-- The grouping loop of `_group_sequential`: the accumulator carries the
current run (`cur_type`, `cur_start`, `cur_params`), the previous normalized
address, and the flushed blocks. -/
def gs_go (maxBits maxRegs : ℕ) :
    List ParamCfg → String → ℤ → List ParamCfg → ℤ → List Block → List Block
  | [], curType, curStart, curParams, _, blocks =>
    blocks ++ [⟨curType, curStart, curParams.length, curParams⟩]
  | p :: rest, curType, curStart, curParams, prevAddr, blocks =>
    let addr := paddr p
    if p.register_type = curType ∧ addr = prevAddr + 1 then
      if overCap maxBits maxRegs p.register_type (curParams.length + 1) then
        gs_go maxBits maxRegs rest p.register_type addr [p] addr
          (blocks ++ [⟨curType, curStart, curParams.length, curParams⟩])
      else
        gs_go maxBits maxRegs rest curType curStart (curParams ++ [p]) addr blocks
    else
      gs_go maxBits maxRegs rest p.register_type addr [p] addr
        (blocks ++ [⟨curType, curStart, curParams.length, curParams⟩])

/-- Model of `ModbusLine._group_sequential`: keep the `words == 1` parameters, sort by
`(register_type, normalized address)`, and group contiguous same-type runs
within the caps. -/
def group_sequential (maxBits maxRegs : ℕ) (params : List ParamCfg) :
    List Block :=
  match sortByKey (params.filter (fun p => wordsEff p = 1)) with
  | [] => []
  | p0 :: rest => gs_go maxBits maxRegs rest p0.register_type (paddr p0) [p0] (paddr p0) []

/-- The parameters that `ModbusLine.run` reads as single transactions after the
blocks: `(pp for pp in nd.params if int(getattr(pp, "words", 1) or 1) > 1)`. -/
def multi_word_params (params : List ParamCfg) : List ParamCfg :=
  params.filter (fun p => 1 < wordsEff p)

/-! ## Publication decider (`ModbusLine._maybe_publish`) -/

/-- One queued envelope as the local `pub()` closure of `_maybe_publish` emits it. -/
structure Emit where
  value : Option ℚ
  code : ℤ
  message : String
  silent_for_s : ℤ
  trigger : String
deriving DecidableEq, Repr

/-- The per-key worker state that `_maybe_publish` reads and writes:
`self._last_values[key]`, `self._last_pub_ts[key]` (absent reads as `0.0`) and
`self._bands[key]`. -/
structure LPState where
  last_value : Option ℚ
  last_pub_ts : Option ℚ
  band : Option (ℚ × ℚ)
deriving DecidableEq, Repr

/-- Model of `interval_due`: `publish_interval_s > 0 and (now - last_pub) >=
publish_interval_s`. -/
def interval_due (p : ParamCfg) (now : ℚ) (st : LPState) : Prop :=
  0 < p.publish_interval_s ∧ p.publish_interval_s ≤ now - st.last_pub_ts.getD 0

instance (p : ParamCfg) (now : ℚ) (st : LPState) : Decidable (interval_due p now st) := by
  unfold interval_due; infer_instance

/-- Model of `ModbusLine._maybe_publish`: decides which envelopes to emit for one read
result and updates the per-key state.  Returns the emitted envelopes in order.
The `state.update` / `current_store` touch calls are outside the claims under
proof and are not modelled here. -/
def maybe_publish (p : ParamCfg) (value : Option ℚ) (code : ℤ) (message : String)
    (last_ok_ts : Option ℚ) (now : ℚ) (st : LPState) : List Emit × LPState :=
  let mode := pyToLower p.publish_mode
  let due := interval_due p now st
  let changedBand : Bool × Option (ℚ × ℚ) :=
    match value with
    | none => (false, st.band)
    | some v =>
      if p.register_type = "coil" ∨ p.register_type = "discrete" then
        (match st.last_value with
         | none => true
         | some lv => decide (pyInt v ≠ pyInt lv), st.band)
      else
        let step := p.step.getD 0
        let hyst := p.hysteresis.getD 0
        if 0 < step ∨ 0 < hyst then
          let r := analog_changed ⟨st.band, st.last_value⟩ v step hyst
          (r.1, r.2.band)
        else
          (match st.last_value with
           | none => true
           | some lv => decide (v ≠ lv), st.band)
  let changed := changedBand.1
  if code = 0 then
    let emits :=
      if mode = "on_change_and_interval" ∨ mode = "both" then
        (if changed then [⟨value, 0, "OK", 0, "change"⟩] else []) ++
        (if due then [⟨value, 0, "OK", 0, "interval"⟩] else [])
      else if mode = "on_change" then
        (if changed then [⟨value, 0, "OK", 0, "change"⟩] else [])
      else if mode = "interval" then
        (if due then [⟨value, 0, "OK", 0, "interval"⟩] else [])
      else
        (if changed then [⟨value, 0, "OK", 0, "change"⟩] else [])
    (emits,
     { last_value := value,
       last_pub_ts := if emits = [] then st.last_pub_ts else some now,
       band := changedBand.2 })
  else
    let silent := pyInt (now - last_ok_ts.getD now)
    let emits :=
      if (mode = "on_change_and_interval" ∨ mode = "both" ∨ mode = "interval") ∧ due then
        [⟨none, code, message, silent, "heartbeat"⟩]
      else []
    (emits,
     { last_value := st.last_value,
       last_pub_ts := if emits = [] then st.last_pub_ts else some now,
       band := changedBand.2 })

/-! ## Per-read bookkeeping in `ModbusLine.run` -/

/-- The per-key timing state of the poll loop: `self._last_ok_ts[key]`,
`self._last_attempt_ts[key]` and the unit's `self._no_reply`. -/
structure RunKeyState where
  last_ok_ts : Option ℚ
  last_attempt_ts : Option ℚ
  no_reply : ℤ
deriving DecidableEq, Repr

/-- The bookkeeping `ModbusLine.run` performs around each read result (single
and block paths are identical): the attempt time is always stamped; on failure
(`val is None`) `no_reply` is incremented and `last_ok_ts` is left untouched;
on success `no_reply` resets and `last_ok_ts := now`. -/
def run_read_update (st : RunKeyState) (now : ℚ) (ok : Bool) : RunKeyState :=
  if ok then { last_ok_ts := some now, last_attempt_ts := some now, no_reply := 0 }
  else { st with last_attempt_ts := some now, no_reply := st.no_reply + 1 }

/-! ## Current-value store (`app/services/current_store.py`) -/

/-- The store key `(line, unit_id, object, param)`. -/
abbrev Key := String × ℤ × String × String

/-- Model of `current_store.ParamState` (named `CurState` here to avoid clashing with
the worker-side state).  Timestamps are rationals; `value` is the published
JSON value (`J.null` models Python `None`). -/
structure CurState where
  object : String
  param : String
  line : String
  unit_id : ℤ
  register_type : String
  address : ℤ
  value : J := J.null
  code : ℤ := 0
  message : String := ""
  last_ok_ts : Option ℚ := none
  last_pub_ts : Option ℚ := none
  trigger : Option String := none
  no_reply : ℤ := 0

/-- A fresh `ParamState(...)` as both `apply_publish` and `reset_from_cfg`
construct it. -/
def newParamState (obj pname line : String) (unit : ℤ) (rtype : String)
    (addr : ℤ) : CurState :=
  { object := obj, param := pname, line := line, unit_id := unit,
    register_type := rtype, address := addr }

/-- The store's dict, as an association list in insertion order. -/
abbrev Store := List (Key × CurState)

/-- Dict lookup `self._items.get(key)`. -/
def storeLookup (s : Store) (k : Key) : Option CurState :=
  (s.find? (fun e => e.1 = k)).map (fun e => e.2)

/-- Dict assignment `items[key] = v`: replaces an existing binding in place,
otherwise appends. -/
def storeInsert : Store → Key → CurState → Store
  | [], k, v => [(k, v)]
  | (k0, v0) :: rest, k, v =>
    if k0 = k then (k, v) :: rest else (k0, v0) :: storeInsert rest k v

/-- The key of a publish context. -/
def ctxKey (c : Ctx) : Key := (c.line, c.unit_id, c.object, c.param)

/-- Model of `int(x)` on a JSON value when it is an integer; `none` where Python's
`int(...)` would raise (non-numeric) or the key is absent. -/
def jToIntOpt : Option J → Option ℤ
  | some (.jint n) => some n
  | _ => none

/-- Model of `CurrentStore.apply_publish`: parses the payload's metadata, creates the
entry if missing, overwrites value/code/message/addressing echo, stamps
`last_pub_ts := ts`, and sets `last_ok_ts := ts` on success; on an error
publish it reconstructs `last_ok_ts := ts - silent_for_s` when the payload
carries `silent_for_s`, and leaves it unchanged otherwise. -/
def apply_publish (s : Store) (ctx : Ctx) (payload : J) (ts : ℚ) : Store :=
  let md := (jGet payload "metadata").getD (J.jobj [])
  let sc := (jGet md "status_code").getD (J.jobj [])
  let code := (jToIntOpt (jGet sc "code")).getD 0
  let message := match jGet sc "message" with
    | some (.jstr m) => m
    | _ => "OK"
  let trigger := match jGet md "trigger" with
    | some (.jstr t) => if t = "" then none else some t
    | _ => none
  let silent := jToIntOpt (jGet md "silent_for_s")
  let no_reply := (jToIntOpt (jGet md "no_reply")).getD 0
  let value := (jGet payload "value").getD J.null
  let key := ctxKey ctx
  let st0 := (storeLookup s key).getD
    (newParamState ctx.object ctx.param ctx.line ctx.unit_id
      ctx.register_type ctx.address)
  let st :=
    { st0 with
      value := value, code := code, message := message,
      register_type := if ctx.register_type = "" then st0.register_type
        else ctx.register_type,
      address := if ctx.address = 0 then st0.address else ctx.address,
      last_pub_ts := some ts, trigger := trigger, no_reply := no_reply,
      last_ok_ts := if code = 0 then some ts
        else match silent with
          | some sil => some (ts - (sil : ℚ))
          | none => st0.last_ok_ts }
  storeInsert s key st

/-- The payload dict built inside `ModbusLine._mqtt_publish` and handed to
`current_store.apply_publish` (metadata carries `silent_for_s`, `trigger`,
`no_reply` and `context`, unlike the bridge's own outbound envelope). -/
def line_payload (value : Option Val) (code : ℤ) (message : String)
    (silent_for_s : ℤ) (trigger : Option String) (no_reply : ℤ) (ctx : Ctx)
    (tsStr : String) : J :=
  J.jobj [
    ("value", match value with | none => J.null | some v => J.jval v),
    ("metadata", J.jobj [
      ("timestamp", J.jstr tsStr),
      ("status_code", J.jobj [("code", J.jint code), ("message", J.jstr message)]),
      ("silent_for_s", J.jint silent_for_s),
      ("trigger", match trigger with | none => J.null | some t => J.jstr t),
      ("no_reply", J.jint no_reply),
      ("context", ctxJ ctx)])]

/-! ## Hot-reload rebuild of the store (`CurrentStore.reset_from_cfg`, called
by `hot_reload_lines`) -/

/-- One parameter dict of the new configuration, with the fields
`reset_from_cfg` reads. -/
structure CfgParam where
  name : String
  register_type : String
  address : ℤ
deriving DecidableEq, Repr

/-- One node dict of the new configuration. -/
structure CfgNode where
  unit_id : ℤ
  object : String
  params : List CfgParam
deriving DecidableEq, Repr

/-- One line dict of the new configuration. -/
structure CfgLine where
  name : String
  nodes : List CfgNode
deriving DecidableEq, Repr

/-- A flattened configuration entry: one iteration of the
`for ln / for nd / for p` loop nest of `reset_from_cfg`. -/
structure CfgEntry where
  line : String
  unit : ℤ
  obj : String
  param : CfgParam
deriving DecidableEq, Repr

/-- The loop nest of `reset_from_cfg` in iteration order. -/
def cfg_entries (cfg : List CfgLine) : List CfgEntry :=
  cfg.flatMap (fun ln => ln.nodes.flatMap (fun nd =>
    nd.params.map (fun p => ⟨ln.name, nd.unit_id, nd.object, p⟩)))

/-- The key a configuration entry contributes. -/
def entryKey (e : CfgEntry) : Key := (e.line, e.unit, e.obj, e.param.name)

/-- The state one configuration entry contributes: a surviving entry is
carried over with only the addressing updated in place, a new key gets a fresh
state. -/
def reset_merge (old : Store) (e : CfgEntry) : CurState :=
  match storeLookup old (entryKey e) with
  | some prev =>
    { prev with register_type := e.param.register_type,
                address := e.param.address }
  | none =>
    newParamState e.obj e.param.name e.line e.unit
      e.param.register_type e.param.address

/-- The body of the `reset_from_cfg` loop for one parameter: skip entries with a
falsy line/name/object, otherwise store the carried-over or fresh state. -/
def reset_step (old : Store) (acc : Store) (e : CfgEntry) : Store :=
  if e.line = "" ∨ e.param.name = "" ∨ e.obj = "" then acc
  else storeInsert acc (entryKey e) (reset_merge old e)

/-- Model of `CurrentStore.reset_from_cfg`: rebuild `self._items` from scratch out of
the new configuration, preserving surviving entries. -/
def reset_from_cfg (old : Store) (cfg : List CfgLine) : Store :=
  (cfg_entries cfg).foldl (reset_step old) []

/-! ## Write path (`_make_write_handler`, `_do_write_task`) -/

/-- A queued write task (`self._write_q` element). -/
structure WriteTask where
  unit_id : ℤ
  param : ParamCfg
  value_num : ℚ
deriving DecidableEq, Repr

/-- Model of the handler body built by `ModbusLine._make_write_handler`: `float(value_str)` with
any parse failure coerced to `0.0`, then enqueue; it returns `True` (command
accepted).  `parsed` is the result of Python's `float(value_str)`. -/
def write_handler (unit_id : ℤ) (p : ParamCfg) (parsed : Option ℚ) :
    Bool × WriteTask :=
  let num := parsed.getD 0
  (true, ⟨unit_id, p, num⟩)

/-- The raw register value `_do_write_task` computes:
`int(round(num / _safe_scale(p.scale)))`. -/
def do_write_raw (t : WriteTask) : ℤ :=
  rhe (t.value_num / safe_scale t.param.scale)

/-- The wire effect of `_do_write_task`: a coil write (FC=5) of `0/1`, a
holding-register write (FC=6) of the raw value, or a rejection for any other
register type, at the normalized address. -/
def do_write_action (t : WriteTask) : Option (ℕ × ℤ × ℤ) :=
  let raw := do_write_raw t
  let addr := paddr t.param
  if t.param.register_type = "coil" then
    some (5, addr, if raw ≠ 0 then 1 else 0)
  else if t.param.register_type = "holding" then
    some (6, addr, raw)
  else none

/-! ## Theorems -/

/-- C1 (counterexample): at a concrete successful publish (value `1`, code `0`,
the exact `status_details` passed by `ModbusLine._mqtt_publish`), the envelope
built by `MqttBridge.publish` does not have the key shape the spec demands:
`silent_for_s`, `trigger`, `no_reply` and `context` are not keys of `metadata`
(the first two end up inside `status_code`, the last two are dropped from the
payload). -/
theorem c1_counterexample :
    specEnvelopeShape (bridge_publish_payload (some (Val.i 1)) 0
      ⟨"OK", 0, some "change", 0⟩ "holding" "2026-01-01T00:00:00.000Z") = false := by
  decide

/-- C1 (amended): for every input, the envelope built by `MqttBridge.publish`
(as invoked by `ModbusLine._mqtt_publish`) has exactly the keys `value` and
`metadata`; `metadata` has exactly `timestamp` and `status_code`; and
`status_code` has exactly `source`, `code`, `message`, `silent_for_s`,
`trigger`.  `no_reply` is popped and `context` is never serialised into the
payload. -/
theorem c1_envelope_keys (value : Option Val) (code : ℤ) (sd : SD)
    (rt ts : String) :
    jkeys (bridge_publish_payload value code sd rt ts) = ["value", "metadata"] ∧
    (jGet (bridge_publish_payload value code sd rt ts) "metadata").map jkeys =
      some ["timestamp", "status_code"] ∧
    ((jGet (bridge_publish_payload value code sd rt ts) "metadata").bind
        (fun m => jGet m "status_code")).map jkeys =
      some ["source", "code", "message", "silent_for_s", "trigger"] :=
  ⟨rfl, rfl, rfl⟩

/-- C2 (counterexample): decoding the wire registers `[0x0001, 0x0000]` as
`u32` with word order `BA` yields `1`, not `65536`: `reorder` maps
`[w0, w1]` to `[w1, w0] = [0, 1]` and the decoder then computes
`(0 << 16) | 1 = 1`. -/
theorem c2_counterexample :
    decode_words [1, 0] "u32" "BA" = some 1 ∧ (1 : ℤ) ≠ 65536 := by
  exact ⟨by decide, by decide⟩

/-- C2 (amended): for every pair of 16-bit wire words `[w0, w1]`, decoding as
`u32` with word order `BA` reorders to `[w1, w0]` and combines the reordered
words as `(first << 16) | second`, i.e. the engineering value is
`w1·2¹⁶ + w0`; on `[0x0001, 0x0000]` this is `1`, not `65536`. -/
theorem c2_u32_ba (w0 w1 : ℕ) (h0 : w0 < 65536) (h1 : w1 < 65536) :
    decode_words [w0, w1] "u32" "BA" = some ((w1 : ℤ) * 65536 + (w0 : ℤ)) := by
  unfold decode_words
  simp only [List.map_cons, List.map_nil]
  rw [Nat.mod_eq_of_lt h0, Nat.mod_eq_of_lt h1]
  rfl

/-- C2 (witness for the amended theorem): the amended statement evaluated at
the claim's concrete registers `[0x0001, 0x0000]`. -/
theorem c2_u32_ba_witness :
    decode_words [1, 0] "u32" "BA" = some ((0 : ℤ) * 65536 + (1 : ℤ)) :=
  c2_u32_ba 1 0 (by decide) (by decide)

/-- Closed form of `normalize_addr` on holding registers. -/
theorem normalize_addr_holding (a : ℤ) :
    normalize_addr true "holding" a = if 40001 ≤ a then a - 40001 else a := by
  unfold normalize_addr
  by_cases h : 40001 ≤ a <;> simp [h]

/-- Closed form of `normalize_addr` on input registers. -/
theorem normalize_addr_input (a : ℤ) :
    normalize_addr true "input" a = if 30001 ≤ a then a - 30001 else a := by
  unfold normalize_addr
  by_cases h : 30001 ≤ a <;> simp [h]

/-- Closed form of `normalize_addr` on coils and discretes. -/
theorem normalize_addr_bit (rt : String) (hrt : rt = "coil" ∨ rt = "discrete")
    (a : ℤ) :
    normalize_addr true rt a = if 1 ≤ a ∧ a < 100000 then a - 1 else a := by
  unfold normalize_addr
  rcases hrt with h | h <;> subst h <;>
    by_cases h1 : 1 ≤ a <;> by_cases h2 : a < 100000 <;> simp [h1, h2]

/-- The map `normalize_addr` is the identity on unknown register types. -/
theorem normalize_addr_other (rt : String) (h1 : rt ≠ "holding")
    (h2 : rt ≠ "input") (h3 : rt ≠ "coil") (h4 : rt ≠ "discrete") (a : ℤ) :
    normalize_addr true rt a = a := by
  unfold normalize_addr
  simp [h1, h2, h3, h4]

/-- C8 (counterexample): address normalization is not idempotent: a coil at
user address `5` normalizes to `4`, and normalizing the produced address `4`
again yields `3`. -/
theorem c8_counterexample :
    normalize_addr true "coil" 5 = 4 ∧
    normalize_addr true "coil" (normalize_addr true "coil" 5) = 3 ∧
    (3 : ℤ) ≠ 4 := by
  refine ⟨by decide, by decide, by decide⟩

/-- C8 (amended): normalization is idempotent on the addresses that do not
re-enter a subtraction range: for `holding` below `80002`, for `input` below
`60002`, for `coil`/`discrete` only at `a ≤ 1` or `a ≥ 100000`, and for every
other register type unconditionally.  Outside those ranges it is not (see the
counterexample). -/
theorem c8_normalize_idempotent (rt : String) (a : ℤ)
    (hc : (rt = "coil" ∨ rt = "discrete") → (a ≤ 1 ∨ 100000 ≤ a))
    (hh : rt = "holding" → a < 80002)
    (hi : rt = "input" → a < 60002) :
    normalize_addr true rt (normalize_addr true rt a) =
      normalize_addr true rt a := by
  by_cases h1 : rt = "holding"
  · have ha := hh h1
    subst h1
    simp only [normalize_addr_holding]
    split_ifs <;> omega
  · by_cases h2 : rt = "input"
    · have ha := hi h2
      subst h2
      simp only [normalize_addr_input]
      split_ifs <;> omega
    · by_cases h3 : rt = "coil" ∨ rt = "discrete"
      · have ha := hc h3
        simp only [normalize_addr_bit rt h3]
        split_ifs <;> omega
      · push_neg at h3
        simp only [normalize_addr_other rt h1 h2 h3.1 h3.2]

/-- C8 (witness for the amended theorem): idempotence at a holding register
address `40001` (normalizing twice stays at `0`). -/
theorem c8_normalize_idempotent_witness :
    normalize_addr true "holding" (normalize_addr true "holding" 40001) =
      normalize_addr true "holding" 40001 :=
  c8_normalize_idempotent "holding" 40001
    (by intro h; exact absurd h (by decide))
    (by intro _; decide)
    (by intro h; exact absurd h (by decide))

/-- C10: an inbound write payload whose value Python's `float()` cannot parse
is not rejected: the handler coerces the value to `0.0` and enqueues the task
(returning `True`), and draining that task writes raw `0` to the target coil
(FC=5) or holding register (FC=6) at the normalized address. -/
theorem c10_unparseable_write (uid : ℤ) (p : ParamCfg) (parsed : Option ℚ)
    (hp : parsed = none) :
    (write_handler uid p parsed).1 = true ∧
    (write_handler uid p parsed).2.value_num = 0 ∧
    (p.register_type = "coil" →
      do_write_action (write_handler uid p parsed).2 = some (5, paddr p, 0)) ∧
    (p.register_type = "holding" →
      do_write_action (write_handler uid p parsed).2 = some (6, paddr p, 0)) := by
  subst hp
  have hraw : rhe 0 = 0 := by norm_num [rhe]
  refine ⟨rfl, rfl, ?_, ?_⟩
  · intro h
    simp [do_write_action, do_write_raw, write_handler, hraw, h]
  · intro h
    simp [do_write_action, do_write_raw, write_handler, hraw, h]

/-- C10 (witness): a concrete unparseable payload on a concrete `rw` coil
parameter: accepted, coerced to `0.0`, and written as `0`. -/
theorem c10_unparseable_write_witness :
    (write_handler 1 ⟨"c1", "coil", 1, 1, "rw", "on_change", 0, none, none, 1,
        "u16", "AB"⟩ none).1 = true ∧
    (write_handler 1 ⟨"c1", "coil", 1, 1, "rw", "on_change", 0, none, none, 1,
        "u16", "AB"⟩ none).2.value_num = 0 ∧
    (("coil" : String) = "coil" →
      do_write_action (write_handler 1 ⟨"c1", "coil", 1, 1, "rw", "on_change", 0,
          none, none, 1, "u16", "AB"⟩ none).2 =
        some (5, paddr ⟨"c1", "coil", 1, 1, "rw", "on_change", 0, none, none, 1,
          "u16", "AB"⟩, 0)) ∧
    (("coil" : String) = "holding" →
      do_write_action (write_handler 1 ⟨"c1", "coil", 1, 1, "rw", "on_change", 0,
          none, none, 1, "u16", "AB"⟩ none).2 =
        some (6, paddr ⟨"c1", "coil", 1, 1, "rw", "on_change", 0, none, none, 1,
          "u16", "AB"⟩, 0)) :=
  c10_unparseable_write 1 _ none rfl

/-- Rounding `rhe` of an integer is that integer. -/
theorem rhe_intCast (m : ℤ) : rhe (m : ℚ) = m := by
  unfold rhe
  norm_num

/-- Rounding an integer to any number of decimals is the identity. -/
theorem round_ndp_intCast (n : ℤ) (d : ℕ) : round_ndp (n : ℚ) d = (n : ℚ) := by
  unfold round_ndp
  have h : (n : ℚ) * 10 ^ d = ((n * 10 ^ d : ℤ) : ℚ) := by push_cast; ring
  rw [h, rhe_intCast]
  push_cast
  have h10 : ((10 : ℚ)) ^ d ≠ 0 := by positivity
  field_simp

/-- C3 (counterexample): for a `u16` holding register with `scale = 1.0`, the
single-read path keeps the decoded raw `42` as a Python `int`, but the
batched block-read path converts it to a `float` (`42.0`): the block path has
no integer fast path, so the claim fails there.  The rounding is also not
half-away-from-zero: `raw = 1` with `scale = 1/16 = 0.0625` rounds to
`0.062` (ties to even), where half-away-from-zero would give `0.063`. -/
theorem c3_counterexample :
    single_eng_val "u16" 42 1 3 = Val.i 42 ∧
    block_eng_val "holding" "u16" 42 1 3 = Val.q 42 ∧
    Val.q 42 ≠ Val.i 42 ∧
    single_eng_val "u16" 1 (1/16) 3 = Val.q (31/500) ∧
    (31 : ℚ)/500 ≠ 63/1000 := by
  have hint : is_int_type "u16" = true := by decide
  refine ⟨?_, ?_, by simp, ?_, by norm_num⟩
  · norm_num [single_eng_val, safe_scale, hint]
  · have h : block_raw "holding" "u16" 42 = 42 := by decide
    norm_num [block_eng_val, h, safe_scale, round_ndp, rhe]
  · norm_num [single_eng_val, safe_scale, hint, round_ndp, rhe]

/-- C3 (amended): on the single-read path an integer-typed raw with
`scale = 1.0` is kept as a Python `int`, and every other single read publishes
`raw × scale` rounded to `precision_decimals` decimals (ties to even, the
rounding of Python's decimal formatting — not half-away-from-zero); the block
path always floats, scales and rounds, even for integer types with
`scale = 1.0`, where it agrees with the single path numerically but not in
type. -/
theorem c3_eng_value (rt dt : String) (raw : ℤ) (scale : ℚ) (ndp : ℕ) :
    (is_int_type dt = true → safe_scale scale = 1 →
      single_eng_val dt raw scale ndp = Val.i raw) ∧
    (¬(is_int_type dt = true ∧ safe_scale scale = 1) →
      single_eng_val dt raw scale ndp =
        Val.q (round_ndp ((raw : ℚ) * safe_scale scale) ndp)) ∧
    (block_eng_val rt dt raw scale ndp =
      Val.q (round_ndp ((block_raw rt dt raw : ℚ) * safe_scale scale) ndp)) ∧
    (dt = "u16" → (rt = "holding" ∨ rt = "input") → 0 ≤ raw → raw < 65536 →
      safe_scale scale = 1 →
      valQ (block_eng_val rt dt raw scale ndp) =
        valQ (single_eng_val dt raw scale ndp)) := by
  refine ⟨?_, ?_, rfl, ?_⟩
  · intro h1 h2
    simp [single_eng_val, h1, h2]
  · intro h
    rw [single_eng_val, if_neg]
    intro hc
    exact h ⟨by simpa using hc.1, hc.2⟩
  · intro hdt hrt h0 hlt hs
    subst hdt
    have hbit : ¬(rt = "coil" ∨ rt = "discrete") := by
      rcases hrt with h | h <;> subst h <;> simp
    have hraw : block_raw rt "u16" raw = raw := by
      have : pyToLower "u16" = "u16" := by decide
      simp [block_raw, hbit, this, Int.emod_eq_of_lt h0 hlt]
    have hint : is_int_type "u16" = true := by decide
    simp [block_eng_val, single_eng_val, hraw, hs, hint, round_ndp_intCast, valQ]

/-- C3 (witness for the amended theorem): the amended statement evaluated at a
`u16` holding register, raw `42`, `scale = 1.0`. -/
theorem c3_eng_value_witness :
    single_eng_val "u16" 42 1 3 = Val.i 42 ∧
    valQ (block_eng_val "holding" "u16" 42 1 3) =
      valQ (single_eng_val "u16" 42 1 3) :=
  ⟨(c3_eng_value "holding" "u16" 42 1 3).1 (by decide) (by norm_num [safe_scale]),
   (c3_eng_value "holding" "u16" 42 1 3).2.2.2 rfl (Or.inl rfl) (by norm_num)
     (by norm_num) (by norm_num [safe_scale])⟩

/-- C4: the stored effective band around `v` is
`[⌊v/step⌋·step − h, (⌊v/step⌋+1)·step + h]`; the first sample of a banded
analog parameter always registers as changed; a later sample registers as
changed exactly when it leaves the stored band, and then the band is remade
around it; and on the spec's concrete sequence `0.0, 0.95, 1.05, 1.2, 0.95,
0.85` with `step = 1.0`, `hysteresis = 0.1` the changes fall exactly at
`0.0`, `1.2` and `0.85`. -/
theorem c4_hysteresis_band :
    (∀ v step hyst : ℚ,
      band_make v step hyst =
        (⌊v / step⌋ * step - hyst, ⌊v / step⌋ * step + step + hyst)) ∧
    (∀ (st : AState) (v step hyst : ℚ), 0 < step → st.band = none →
      (analog_changed st v step hyst).1 = true) ∧
    (∀ (st : AState) (v step hyst lo hi : ℚ), 0 < step →
      st.band = some (lo, hi) →
      ((analog_changed st v step hyst).1 = true ↔ (v < lo ∨ hi < v))) ∧
    (∀ (st : AState) (v step hyst lo hi : ℚ), 0 < step →
      st.band = some (lo, hi) → (v < lo ∨ hi < v) →
      (analog_changed st v step hyst).2.band =
        some (band_make v step |hyst|)) ∧
    analog_run 1 (1/10) ⟨none, none⟩ [0, 19/20, 21/20, 6/5, 19/20, 17/20] =
      [true, false, false, true, false, true] := by
  have habs : |(1 : ℚ)/10| = 1/10 := by norm_num
  refine ⟨fun _ _ _ => rfl, ?_, ?_, ?_, ?_⟩
  · intro st v step hyst hstep hband
    simp [analog_changed, not_le.mpr hstep, hband]
  · intro st v step hyst lo hi hstep hband
    simp only [analog_changed, not_le.mpr hstep, if_false, hband]
    by_cases h : v < lo ∨ hi < v <;> simp [h]
  · intro st v step hyst lo hi hstep hband hout
    simp [analog_changed, not_le.mpr hstep, hband, hout]
  · norm_num [analog_run, analog_changed, band_make, habs]

/-- C4 (witness): the theorem's banded clauses evaluated at `step = 1`,
`hysteresis = 0.1`: the first sample `0.0` registers as changed, and from the
band `[-0.1, 1.1]` the sample `1.2` registers as changed. -/
theorem c4_hysteresis_band_witness :
    (analog_changed ⟨none, none⟩ 0 1 (1/10)).1 = true ∧
    ((analog_changed ⟨some (-(1/10), 11/10), some 0⟩ (6/5) 1 (1/10)).1 = true ↔
      ((6 : ℚ)/5 < -(1/10) ∨ (11 : ℚ)/10 < 6/5)) :=
  ⟨c4_hysteresis_band.2.1 ⟨none, none⟩ 0 1 (1/10) (by norm_num) rfl,
   c4_hysteresis_band.2.2.1 ⟨some (-(1/10), 11/10), some 0⟩ (6/5) 1 (1/10)
     (-(1/10)) (11/10) (by norm_num) rfl⟩

/-- C5: on every read result with a non-zero error code, a single heartbeat
envelope is emitted exactly when the publish mode includes interval
(`interval`, `on_change_and_interval`, or the alias `both`) and the interval is
due; the envelope carries `value = null`, the classified code and message,
`silent_for_s = ⌊now − last_ok_ts⌋` and trigger `heartbeat`.  In particular no
envelope is emitted on error under mode `on_change`. -/
theorem c5_error_heartbeat (p : ParamCfg) (code : ℤ) (msg : String)
    (lastOk now : ℚ) (st : LPState) (hc : code ≠ 0) (hle : lastOk ≤ now) :
    (maybe_publish p none code msg (some lastOk) now st).1 =
      if (pyToLower p.publish_mode = "on_change_and_interval" ∨
          pyToLower p.publish_mode = "both" ∨
          pyToLower p.publish_mode = "interval") ∧ interval_due p now st
      then [⟨none, code, msg, ⌊now - lastOk⌋, "heartbeat"⟩]
      else [] := by
  have hsil : pyInt (now - lastOk) = ⌊now - lastOk⌋ := by
    unfold pyInt
    rw [if_pos (by linarith)]
  simp [maybe_publish, hc, hsil]

/-- C5 (witness): a concrete error read in mode `interval` with the interval
due: exactly one heartbeat with `silent_for_s = ⌊105.5 − 100⌋ = 5`. -/
theorem c5_error_heartbeat_witness :
    (maybe_publish ⟨"q1", "holding", 1, 1, "r", "interval", 2, none, none, 1,
        "u16", "AB"⟩ none 1 "TIMEOUT" (some 100) (211/2)
      ⟨some 7, some 100, none⟩).1 =
      if (pyToLower "interval" = "on_change_and_interval" ∨
          pyToLower "interval" = "both" ∨ pyToLower "interval" = "interval") ∧
          interval_due ⟨"q1", "holding", 1, 1, "r", "interval", 2, none, none, 1,
            "u16", "AB"⟩ (211/2) ⟨some 7, some 100, none⟩
      then [⟨none, 1, "TIMEOUT", ⌊(211 : ℚ)/2 - 100⌋, "heartbeat"⟩]
      else [] :=
  c5_error_heartbeat _ 1 "TIMEOUT" 100 (211/2) ⟨some 7, some 100, none⟩
    (by decide) (by norm_num)

/-- Dict lookup after dict assignment at the same key. -/
theorem storeLookup_insert (s : Store) (k : Key) (v : CurState) :
    storeLookup (storeInsert s k v) k = some v := by
  induction s with
  | nil => simp [storeInsert, storeLookup]
  | cons e rest ih =>
    obtain ⟨k0, v0⟩ := e
    by_cases h : k0 = k
    · subst h
      simp [storeInsert, storeLookup]
    · simpa [storeInsert, storeLookup, h] using ih

/-- Dict lookup after dict assignment at a different key. -/
theorem storeLookup_insert_ne (s : Store) (k k' : Key) (v : CurState)
    (h : k' ≠ k) :
    storeLookup (storeInsert s k v) k' = storeLookup s k' := by
  induction s with
  | nil => simp [storeInsert, storeLookup, Ne.symm h]
  | cons e rest ih =>
    obtain ⟨k0, v0⟩ := e
    by_cases h0 : k0 = k
    · subst h0
      simp [storeInsert, storeLookup, Ne.symm h]
    · by_cases h1 : k0 = k'
      · subst h1
        simp [storeInsert, storeLookup, h0]
      · simpa [storeInsert, storeLookup, h0, h1] using ih

/-- C6 (counterexample): `CurrentStore.apply_publish` does update `last_ok_ts`
on an error result: an entry with `last_ok_ts = 100` that receives an error
publish (`code = 1`) whose payload carries `silent_for_s = 5` at `ts = 200`
ends up with `last_ok_ts = 195 ≠ 100`. -/
theorem c6_counterexample :
    ((storeLookup
        (apply_publish
          [(("L1", 1, "obj", "q1"),
            { newParamState "obj" "q1" "L1" 1 "holding" 100 with
                last_ok_ts := some 100 })]
          ⟨"obj", "L1", 1, "holding", 100, "q1"⟩
          (line_payload none 1 "TIMEOUT" 5 (some "heartbeat") 0
            ⟨"obj", "L1", 1, "holding", 100, "q1"⟩ "ts")
          200)
        ("L1", 1, "obj", "q1")).map (fun st => st.last_ok_ts)) =
      some (some 195) ∧
    some (some (195 : ℚ)) ≠ some (some (100 : ℚ)) := by
  constructor
  · have h1 : storeLookup
        [(("L1", 1, "obj", "q1"),
          { newParamState "obj" "q1" "L1" 1 "holding" 100 with
              last_ok_ts := some 100 })]
        ("L1", 1, "obj", "q1") =
        some { newParamState "obj" "q1" "L1" 1 "holding" 100 with
                 last_ok_ts := some 100 } := by
      simp [storeLookup]
    simp [apply_publish, line_payload, jGet, jToIntOpt, ctxJ, ctxKey, h1,
      storeLookup_insert]
    norm_num
  · intro h
    have := Option.some.inj (Option.some.inj h)
    norm_num at this

/-- C6 (amended): the Bus Worker's per-parameter `last_ok_ts` is never
updated by an error result and is non-decreasing whenever the clock is; the
Current-Value Store's `apply_publish`, however, always rewrites `last_ok_ts`:
to `ts` on success, and on an error publish to the reconstruction
`ts − silent_for_s` taken from the payload (the envelopes built by
`ModbusLine._mqtt_publish` always carry `silent_for_s`). -/
theorem c6_last_ok (st : RunKeyState) (now : ℚ) :
    ((run_read_update st now false).last_ok_ts = st.last_ok_ts) ∧
    (∀ (ok : Bool) (a : ℚ), st.last_ok_ts = some a → a ≤ now →
      ∃ b, (run_read_update st now ok).last_ok_ts = some b ∧ a ≤ b) ∧
    (∀ (s : Store) (ctx : Ctx) (value : Option Val) (code : ℤ) (msg : String)
        (silent nr : ℤ) (trig : Option String) (tstr : String) (ts : ℚ),
      (storeLookup (apply_publish s ctx
          (line_payload value code msg silent trig nr ctx tstr) ts)
        (ctxKey ctx)).map (fun e => e.last_ok_ts) =
        some (if code = 0 then some ts else some (ts - (silent : ℚ)))) := by
  refine ⟨rfl, ?_, ?_⟩
  · intro ok a ha hle
    cases ok
    · exact ⟨a, by simp [run_read_update, ha], le_refl a⟩
    · exact ⟨now, by simp [run_read_update], hle⟩
  · intro s ctx value code msg silent nr trig tstr ts
    by_cases h : code = 0 <;>
      simp [apply_publish, line_payload, jGet, jToIntOpt, ctxJ,
        storeLookup_insert, h]

/-- C6 (witness): the worker clause at a concrete state (`last_ok = 100`,
`now = 200`, failed read leaves `last_ok` at `100`), and the store clause at a
concrete error publish. -/
theorem c6_last_ok_witness :
    ((run_read_update ⟨some 100, some 150, 2⟩ 200 false).last_ok_ts =
      some 100) ∧
    (∃ b, (run_read_update ⟨some 100, some 150, 2⟩ 200 true).last_ok_ts =
      some b ∧ (100 : ℚ) ≤ b) :=
  ⟨(c6_last_ok ⟨some 100, some 150, 2⟩ 200).1,
   (c6_last_ok ⟨some 100, some 150, 2⟩ 200).2.1 true 100 rfl (by norm_num)⟩

/-! ## C7: properties of the planner output -/

/-- A run of parameters of one register type at consecutive normalized
addresses starting at `a`, all single-word. -/
def block_params_ok (rt : String) : ℤ → List ParamCfg → Prop
  | _, [] => True
  | a, p :: ps => p.register_type = rt ∧ paddr p = a ∧ wordsEff p = 1 ∧
      block_params_ok rt (a + 1) ps

/-- The specification of one planned block: the advertised count matches, the
members form a contiguous single-type single-word run from `start`, and the
member count respects the configured caps. -/
def block_ok (maxBits maxRegs : ℕ) (b : Block) : Prop :=
  b.count = b.params.length ∧
  block_params_ok b.rtype b.start b.params ∧
  ((b.rtype = "coil" ∨ b.rtype = "discrete") → b.params.length ≤ maxBits) ∧
  ((b.rtype = "holding" ∨ b.rtype = "input") → b.params.length ≤ maxRegs)

theorem block_params_ok_append (rt : String) (p : ParamCfg) :
    ∀ (a : ℤ) (ps : List ParamCfg), block_params_ok rt a ps →
    p.register_type = rt → paddr p = a + ps.length → wordsEff p = 1 →
    block_params_ok rt a (ps ++ [p]) := by
  intro a ps
  induction ps generalizing a with
  | nil =>
    intro _ hrt haddr hw
    exact ⟨hrt, by simpa using haddr, hw, trivial⟩
  | cons q qs ih =>
    intro h hrt haddr hw
    obtain ⟨h1, h2, h3, h4⟩ := h
    refine ⟨h1, h2, h3, ih (a + 1) h4 hrt ?_ hw⟩
    simp only [List.length_cons] at haddr
    push_cast at haddr ⊢
    linarith

theorem block_params_ok_words (rt : String) :
    ∀ (a : ℤ) (ps : List ParamCfg), block_params_ok rt a ps →
    ∀ q ∈ ps, wordsEff q = 1 := by
  intro a ps
  induction ps generalizing a with
  | nil => intro _ q hq; cases hq
  | cons r rs ih =>
    intro h q hq
    obtain ⟨_, _, h3, h4⟩ := h
    rcases List.mem_cons.mp hq with h | h
    · subst h; exact h3
    · exact ih (a + 1) h4 q h

theorem gs_go_ok (maxBits maxRegs : ℕ) (hb : 1 ≤ maxBits) (hr : 1 ≤ maxRegs) :
    ∀ (rest : List ParamCfg) (curType : String) (curStart : ℤ)
      (curParams : List ParamCfg) (blocks : List Block),
      (∀ b ∈ blocks, block_ok maxBits maxRegs b) →
      block_params_ok curType curStart curParams →
      ((curType = "coil" ∨ curType = "discrete") → curParams.length ≤ maxBits) →
      ((curType = "holding" ∨ curType = "input") → curParams.length ≤ maxRegs) →
      (∀ p ∈ rest, wordsEff p = 1) →
      ∀ b ∈ gs_go maxBits maxRegs rest curType curStart curParams
          (curStart + curParams.length - 1) blocks,
        block_ok maxBits maxRegs b := by
  intro rest
  induction rest with
  | nil =>
    intro curType curStart curParams blocks hblocks hrun hcb hcr _ b hbmem
    simp only [gs_go] at hbmem
    rcases List.mem_append.mp hbmem with h | h
    · exact hblocks b h
    · rw [List.mem_singleton] at h
      subst h
      exact ⟨rfl, hrun, hcb, hcr⟩
  | cons p rest ih =>
    intro curType curStart curParams blocks hblocks hrun hcb hcr hw
    have hwp : wordsEff p = 1 := hw p (List.mem_cons_self p rest)
    have hwrest : ∀ q ∈ rest, wordsEff q = 1 :=
      fun q hq => hw q (List.mem_cons_of_mem p hq)
    have hflush : ∀ b ∈ blocks ++ [⟨curType, curStart, curParams.length, curParams⟩],
        block_ok maxBits maxRegs b := by
      intro b hbmem
      rcases List.mem_append.mp hbmem with h | h
      · exact hblocks b h
      · rw [List.mem_singleton] at h
        subst h
        exact ⟨rfl, hrun, hcb, hcr⟩
    have hsingle : block_params_ok p.register_type (paddr p) [p] :=
      ⟨rfl, rfl, hwp, trivial⟩
    simp only [gs_go]
    by_cases hcont : p.register_type = curType ∧ paddr p = curStart + curParams.length - 1 + 1
    · rw [if_pos hcont]
      by_cases hover : overCap maxBits maxRegs p.register_type (curParams.length + 1)
      · rw [if_pos hover]
        have := ih p.register_type (paddr p) [p]
          (blocks ++ [⟨curType, curStart, curParams.length, curParams⟩])
          hflush hsingle
          (fun _ => by simpa using hb) (fun _ => by simpa using hr) hwrest
        simpa using this
      · rw [if_neg hover]
        have happ : block_params_ok curType curStart (curParams ++ [p]) := by
          refine block_params_ok_append curType p curStart curParams hrun hcont.1 ?_ hwp
          omega
        have hlen : (curParams ++ [p]).length = curParams.length + 1 := by simp
        have hcb' : (curType = "coil" ∨ curType = "discrete") →
            (curParams ++ [p]).length ≤ maxBits := by
          intro ht
          rw [hlen]
          by_contra hgt
          exact hover (Or.inl ⟨hcont.1.symm ▸ ht, by omega⟩)
        have hcr' : (curType = "holding" ∨ curType = "input") →
            (curParams ++ [p]).length ≤ maxRegs := by
          intro ht
          rw [hlen]
          by_contra hgt
          exact hover (Or.inr ⟨hcont.1.symm ▸ ht, by omega⟩)
        have := ih curType curStart (curParams ++ [p]) blocks hblocks happ hcb' hcr' hwrest
        have haddr : paddr p = curStart + ((curParams ++ [p]).length : ℤ) - 1 := by
          rw [hlen]
          push_cast
          omega
        rw [← haddr] at this
        simpa [haddr] using this
    · rw [if_neg hcont]
      have := ih p.register_type (paddr p) [p]
        (blocks ++ [⟨curType, curStart, curParams.length, curParams⟩])
        hflush hsingle
        (fun _ => by simpa using hb) (fun _ => by simpa using hr) hwrest
      simpa using this

theorem mem_insertByKey (x y : ParamCfg) (l : List ParamCfg) :
    x ∈ insertByKey y l ↔ x = y ∨ x ∈ l := by
  induction l with
  | nil => simp [insertByKey]
  | cons z zs ih =>
    by_cases h : keyLe (planKey y) (planKey z)
    · simp [insertByKey, h]
    · simp only [insertByKey, if_neg h, List.mem_cons, ih]
      tauto

theorem mem_sortByKey (x : ParamCfg) (l : List ParamCfg) :
    x ∈ sortByKey l ↔ x ∈ l := by
  induction l with
  | nil => simp [sortByKey]
  | cons y ys ih =>
    simp only [sortByKey, mem_insertByKey, List.mem_cons, ih]

/-- C7: every block the Request Planner emits holds parameters of a single
register type at contiguous normalized addresses, never more than `max_bits`
members for coil/discrete blocks nor `max_registers` members for
holding/input blocks, and only single-word parameters; the parameters read as
single transactions outside the blocks are exactly those with `words > 1`. -/
theorem c7_planner (maxBits maxRegs : ℕ) (params : List ParamCfg)
    (hb : 1 ≤ maxBits) (hr : 1 ≤ maxRegs) :
    (∀ b ∈ group_sequential maxBits maxRegs params,
      block_ok maxBits maxRegs b) ∧
    (∀ p, p ∈ multi_word_params params ↔ (p ∈ params ∧ 1 < wordsEff p)) ∧
    (∀ p ∈ multi_word_params params,
      ∀ b ∈ group_sequential maxBits maxRegs params, p ∉ b.params) := by
  have hblocks : ∀ b ∈ group_sequential maxBits maxRegs params,
      block_ok maxBits maxRegs b := by
    unfold group_sequential
    rcases hs : sortByKey (params.filter (fun p => wordsEff p = 1)) with _ | ⟨p0, rest⟩
    · intro b hbmem
      cases hbmem
    · have hmem : ∀ q ∈ p0 :: rest, wordsEff q = 1 := by
        intro q hq
        have : q ∈ sortByKey (params.filter (fun p => wordsEff p = 1)) := by
          rw [hs]; exact hq
        rw [mem_sortByKey] at this
        exact of_decide_eq_true (List.mem_filter.mp this).2
      have hw0 : wordsEff p0 = 1 := hmem p0 (List.mem_cons_self p0 rest)
      have hrest : ∀ q ∈ rest, wordsEff q = 1 :=
        fun q hq => hmem q (List.mem_cons_of_mem p0 hq)
      have := gs_go_ok maxBits maxRegs hb hr rest p0.register_type (paddr p0)
        [p0] [] (by intro b hbmem; cases hbmem) ⟨rfl, rfl, hw0, trivial⟩
        (fun _ => by simpa using hb) (fun _ => by simpa using hr) hrest
      simpa using this
  refine ⟨hblocks, ?_, ?_⟩
  · intro p
    simp [multi_word_params, List.mem_filter]
  · intro p hp b hbmem hpb
    have h1 : 1 < wordsEff p :=
      of_decide_eq_true (List.mem_filter.mp hp).2
    have h2 : wordsEff p = 1 :=
      block_params_ok_words b.rtype b.start b.params (hblocks b hbmem).2.1 p hpb
    omega

/-- C7 (witness): the planner at concrete caps `8`/`8` on a concrete
parameter list: every emitted block satisfies the block specification and the
multi-word membership characterisation holds. -/
theorem c7_planner_witness :
    (∀ b ∈ group_sequential 8 8
        [⟨"c1", "coil", 1, 1, "r", "on_change", 0, none, none, 1, "u16", "AB"⟩,
         ⟨"h1", "holding", 40001, 1, "r", "on_change", 0, none, none, 1, "u16", "AB"⟩,
         ⟨"h2", "holding", 40002, 1, "r", "on_change", 0, none, none, 2, "u32", "AB"⟩],
      block_ok 8 8 b) ∧
    (∀ p, p ∈ multi_word_params
        [⟨"c1", "coil", 1, 1, "r", "on_change", 0, none, none, 1, "u16", "AB"⟩,
         ⟨"h1", "holding", 40001, 1, "r", "on_change", 0, none, none, 1, "u16", "AB"⟩,
         ⟨"h2", "holding", 40002, 1, "r", "on_change", 0, none, none, 2, "u32", "AB"⟩] ↔
      (p ∈ [⟨"c1", "coil", 1, 1, "r", "on_change", 0, none, none, 1, "u16", "AB"⟩,
         ⟨"h1", "holding", 40001, 1, "r", "on_change", 0, none, none, 1, "u16", "AB"⟩,
         ⟨"h2", "holding", 40002, 1, "r", "on_change", 0, none, none, 2, "u32", "AB"⟩] ∧
        1 < wordsEff p)) :=
  ⟨(c7_planner 8 8 _ (by decide) (by decide)).1,
   (c7_planner 8 8 _ (by decide) (by decide)).2.1⟩

/-! ## C9: the store rebuild on hot reload -/

theorem reset_foldl_notin (old : Store) :
    ∀ (es : List CfgEntry) (acc : Store) (k : Key),
      (∀ e ∈ es, entryKey e ≠ k) →
      storeLookup (es.foldl (reset_step old) acc) k = storeLookup acc k := by
  intro es
  induction es with
  | nil => intro acc k _; rfl
  | cons e0 es ih =>
    intro acc k hk
    have h0 : entryKey e0 ≠ k := hk e0 (List.mem_cons_self e0 es)
    have hrest : ∀ e ∈ es, entryKey e ≠ k :=
      fun e he => hk e (List.mem_cons_of_mem e0 he)
    rw [List.foldl_cons, ih (reset_step old acc e0) k hrest]
    unfold reset_step
    split_ifs with h
    · rfl
    · exact storeLookup_insert_ne acc (entryKey e0) k (reset_merge old e0)
        (Ne.symm h0)

theorem reset_foldl_mem (old : Store) :
    ∀ (es : List CfgEntry) (acc : Store),
      (∀ e ∈ es, e.line ≠ "" ∧ e.param.name ≠ "" ∧ e.obj ≠ "") →
      (es.map entryKey).Nodup →
      ∀ e ∈ es, storeLookup (es.foldl (reset_step old) acc) (entryKey e) =
        some (reset_merge old e) := by
  intro es
  induction es with
  | nil => intro acc _ _ e he; cases he
  | cons e0 es ih =>
    intro acc hne hnd e he
    have hnd' := hnd
    rw [List.map_cons, List.nodup_cons] at hnd'
    rcases List.mem_cons.mp he with h | h
    · subst h
      have hdiff : ∀ e' ∈ es, entryKey e' ≠ entryKey e := by
        intro e' he' hkeq
        exact hnd'.1 (hkeq ▸ List.mem_map_of_mem entryKey he')
      rw [List.foldl_cons, reset_foldl_notin old es _ (entryKey e) hdiff]
      unfold reset_step
      obtain ⟨h1, h2, h3⟩ := hne e (List.mem_cons_self e es)
      rw [if_neg (by tauto)]
      exact storeLookup_insert acc (entryKey e) (reset_merge old e)
    · rw [List.foldl_cons]
      exact ih (reset_step old acc e0)
        (fun e' he' => hne e' (List.mem_cons_of_mem e0 he')) hnd'.2 e h

/-- C9: after a hot reload, `reset_from_cfg` rebuilds the store so that its
key set is exactly the `(line, unit, object, param)` key set of the new
configuration; an entry whose key survives keeps its previous `value`, `code`,
`message`, `last_ok_ts` and `last_pub_ts` and only has `register_type` and
`address` rewritten from the new configuration; keys absent from the new
configuration are gone.  (The hypotheses — non-empty identifiers and unique
keys — are the invariants the admin-side validation guarantees.) -/
theorem c9_reset_from_cfg (old : Store) (cfg : List CfgLine)
    (hne : ∀ e ∈ cfg_entries cfg, e.line ≠ "" ∧ e.param.name ≠ "" ∧ e.obj ≠ "")
    (hnd : ((cfg_entries cfg).map entryKey).Nodup) :
    (∀ k, storeLookup (reset_from_cfg old cfg) k ≠ none ↔
      k ∈ (cfg_entries cfg).map entryKey) ∧
    (∀ e ∈ cfg_entries cfg,
      storeLookup (reset_from_cfg old cfg) (entryKey e) =
        some (reset_merge old e)) ∧
    (∀ e ∈ cfg_entries cfg, ∀ prev, storeLookup old (entryKey e) = some prev →
      storeLookup (reset_from_cfg old cfg) (entryKey e) =
        some { prev with register_type := e.param.register_type,
                         address := e.param.address }) := by
  have hmem : ∀ e ∈ cfg_entries cfg,
      storeLookup (reset_from_cfg old cfg) (entryKey e) =
        some (reset_merge old e) :=
    reset_foldl_mem old (cfg_entries cfg) [] hne hnd
  refine ⟨?_, hmem, ?_⟩
  · intro k
    constructor
    · intro hsome
      by_contra hk
      have hdiff : ∀ e ∈ cfg_entries cfg, entryKey e ≠ k := by
        intro e he hkeq
        exact hk (hkeq ▸ List.mem_map_of_mem entryKey he)
      rw [reset_from_cfg, reset_foldl_notin old (cfg_entries cfg) [] k hdiff] at hsome
      exact hsome rfl
    · intro hk
      obtain ⟨e, he, hkeq⟩ := List.mem_map.mp hk
      subst hkeq
      rw [hmem e he]
      exact Option.some_ne_none _
  · intro e he prev hprev
    rw [hmem e he]
    unfold reset_merge
    rw [hprev]

/-- C9 (witness): a concrete reload: the old store holds keys `q1` (with
history) and `gone`; the new configuration keeps `q1` with a new address and
adds `q2`.  After the rebuild, `q1` keeps its value and timestamps with the
address updated, and `gone` is no longer present. -/
theorem c9_reset_from_cfg_witness :
    storeLookup
        (reset_from_cfg
          [(("L1", 1, "obj", "q1"),
            { newParamState "obj" "q1" "L1" 1 "holding" 40001 with
                value := J.jval (Val.i 42), last_ok_ts := some 100,
                last_pub_ts := some 90 }),
           (("L1", 1, "obj", "gone"),
            newParamState "obj" "gone" "L1" 1 "holding" 40002)]
          [⟨"L1", [⟨1, "obj", [⟨"q1", "holding", 40005⟩, ⟨"q2", "input", 30001⟩]⟩]⟩])
        ("L1", 1, "obj", "q1") =
      some { newParamState "obj" "q1" "L1" 1 "holding" 40005 with
               value := J.jval (Val.i 42), last_ok_ts := some 100,
               last_pub_ts := some 90 } ∧
    storeLookup
        (reset_from_cfg
          [(("L1", 1, "obj", "q1"),
            { newParamState "obj" "q1" "L1" 1 "holding" 40001 with
                value := J.jval (Val.i 42), last_ok_ts := some 100,
                last_pub_ts := some 90 }),
           (("L1", 1, "obj", "gone"),
            newParamState "obj" "gone" "L1" 1 "holding" 40002)]
          [⟨"L1", [⟨1, "obj", [⟨"q1", "holding", 40005⟩, ⟨"q2", "input", 30001⟩]⟩]⟩])
        ("L1", 1, "obj", "gone") = none := by
  have h := c9_reset_from_cfg
    [(("L1", 1, "obj", "q1"),
      { newParamState "obj" "q1" "L1" 1 "holding" 40001 with
          value := J.jval (Val.i 42), last_ok_ts := some 100,
          last_pub_ts := some 90 }),
     (("L1", 1, "obj", "gone"),
      newParamState "obj" "gone" "L1" 1 "holding" 40002)]
    [⟨"L1", [⟨1, "obj", [⟨"q1", "holding", 40005⟩, ⟨"q2", "input", 30001⟩]⟩]⟩]
    (by intro e he; fin_cases he <;> exact ⟨by decide, by decide, by decide⟩)
    (by decide)
  constructor
  · have hq1 : (⟨"L1", 1, "obj", ⟨"q1", "holding", 40005⟩⟩ : CfgEntry) ∈
        cfg_entries
          [⟨"L1", [⟨1, "obj", [⟨"q1", "holding", 40005⟩, ⟨"q2", "input", 30001⟩]⟩]⟩] := by
      simp [cfg_entries]
    have := h.2.2 ⟨"L1", 1, "obj", ⟨"q1", "holding", 40005⟩⟩ hq1
      { newParamState "obj" "q1" "L1" 1 "holding" 40001 with
          value := J.jval (Val.i 42), last_ok_ts := some 100,
          last_pub_ts := some 90 }
      (by simp [storeLookup, entryKey])
    simpa [newParamState] using this
  · by_contra hne2
    have := (h.1 ("L1", 1, "obj", "gone")).mp hne2
    simp [cfg_entries, entryKey] at this

end Gateway

